import Mathlib

/-!
Verification of the subscription registry and dispatch engine of
`graphql-redis-subscriptions` (file `src/redis-pubsub.ts`).

The TypeScript class `RedisPubSub` is shallowly embedded:

* the JS objects `subscriptionMap` and `subsRefsMap` become association
  lists (`lookupL` / `setL` / `eraseL` mirror property read, assignment and
  `delete`);
* the stateful methods `subscribe`, `unsubscribe`, `onMessage` and
  `publish` become pure functions from an explicit `RState` to a result
  record, with the transport calls they issue collected in a trace;
* listeners are modelled by their observable behaviour during fan-out: a
  function `Val → Bool` deciding whether the listener throws on a given
  value, with the dispatch trace recording every invocation;
* the default codec (`JSON.stringify` / `JSON.parse`), which is a JS
  builtin and not code of this repository, is modelled from the spec as a
  structural JSON printer and recursive-descent parser on character lists.
-/

/-! ## Association lists (JS object semantics) -/

/-- Property read `m[k]` on a JS object modelled as an association list. -/
def lookupL {κ : Type} {α : Type} [DecidableEq κ] : List (κ × α) → κ → Option α
  | [], _ => none
  | (k₀, v₀) :: rest, k => if k₀ = k then some v₀ else lookupL rest k

/-- Property assignment `m[k] = v`: replace the first entry with key `k`
in place, or append a fresh entry. -/
def setL {κ : Type} {α : Type} [DecidableEq κ] : List (κ × α) → κ → α → List (κ × α)
  | [], k, v => [(k, v)]
  | (k₀, v₀) :: rest, k, v =>
    if k₀ = k then (k, v) :: rest else (k₀, v₀) :: setL rest k v

/-- Property deletion `delete m[k]`: drop the first entry with key `k`. -/
def eraseL {κ : Type} {α : Type} [DecidableEq κ] : List (κ × α) → κ → List (κ × α)
  | [], _ => []
  | (k₀, v₀) :: rest, k =>
    if k₀ = k then rest else (k₀, v₀) :: eraseL rest k

/-- The keys of an association list are pairwise distinct. -/
def keysND {κ : Type} {α : Type} (m : List (κ × α)) : Prop :=
  (m.map Prod.fst).Nodup

/-! ## JSON values (the wire data model of the default codec) -/

/-- Wire payloads and channel-name characters. -/
abbrev Str := List Char

/-- JSON-representable values: objects, arrays, strings, (integer)
numbers, booleans, null.  This is the data model of the default codec. -/
inductive Json where
  | null : Json
  | bool : Bool → Json
  | num : Int → Json
  | str : Str → Json
  | arr : List Json → Json
  | obj : List (Str × Json) → Json

/-- The `\x7b` character. -/
def lbrace : Char := Char.ofNat 123

/-- The `\x7d` character. -/
def rbrace : Char := Char.ofNat 125

/-- Decimal digit to character. -/
def digitChar : Nat → Char
  | 0 => '0' | 1 => '1' | 2 => '2' | 3 => '3' | 4 => '4'
  | 5 => '5' | 6 => '6' | 7 => '7' | 8 => '8' | _ => '9'

/-- Character to decimal digit, if any. -/
def charDigit (c : Char) : Option Nat :=
  if c = '0' then some 0 else if c = '1' then some 1
  else if c = '2' then some 2 else if c = '3' then some 3
  else if c = '4' then some 4 else if c = '5' then some 5
  else if c = '6' then some 6 else if c = '7' then some 7
  else if c = '8' then some 8 else if c = '9' then some 9
  else none

/-- Decimal digits of `n`, most significant first. -/
def natDigitsMSB (n : Nat) : List Nat :=
  if _h : n < 10 then [n] else natDigitsMSB (n / 10) ++ [n % 10]
termination_by n
decreasing_by exact Nat.div_lt_self (by omega) (by omega)

/-- Print a natural number in decimal. -/
def printNatC (n : Nat) : Str :=
  (natDigitsMSB n).map digitChar

/-- Print an integer in decimal (a leading minus sign when negative). -/
def printInt (n : Int) : Str :=
  if n < 0 then '-' :: printNatC n.natAbs else printNatC n.natAbs

/-- String-literal escaping of one character (quote, backslash and the
common control characters; other characters are printed verbatim). -/
def escapeChar (c : Char) : Str :=
  if c = '"' then ['\\', '"']
  else if c = '\\' then ['\\', '\\']
  else if c = '\n' then ['\\', 'n']
  else if c = '\t' then ['\\', 't']
  else if c = '\r' then ['\\', 'r']
  else [c]

/-- Print a JSON string literal, quotes included. -/
def printStr (s : Str) : Str :=
  '"' :: (s.map escapeChar).flatten ++ ['"']

mutual

/-- Modelled from the spec: `JSON.stringify`, the "general structured
encoding" of the default codec (a JS builtin, not repository code). -/
def printJson : Json → Str
  | .null => 'n' :: ['u', 'l', 'l']
  | .bool b => if b then 't' :: ['r', 'u', 'e'] else 'f' :: ['a', 'l', 's', 'e']
  | .num n => printInt n
  | .str s => printStr s
  | .arr xs => '[' :: printArr xs ++ [']']
  | .obj kvs => lbrace :: printObjM kvs ++ [rbrace]

/-- Comma-separated printing of array elements. -/
def printArr : List Json → Str
  | [] => []
  | [x] => printJson x
  | x :: y :: xs => printJson x ++ ',' :: printArr (y :: xs)

/-- Comma-separated printing of object members. -/
def printObjM : List (Str × Json) → Str
  | [] => []
  | [(k, v)] => printStr k ++ ':' :: printJson v
  | (k, v) :: m :: kvs => printStr k ++ ':' :: printJson v ++ ',' :: printObjM (m :: kvs)

end

/-- Inverse of `escapeChar` on the character following a backslash. -/
def unescapeChar (c : Char) : Option Char :=
  if c = '"' then some '"'
  else if c = '\\' then some '\\'
  else if c = 'n' then some '\n'
  else if c = 't' then some '\t'
  else if c = 'r' then some '\r'
  else none

/-- Parse the body of a string literal (after the opening quote), up to
and including the closing quote. -/
def parseStrAux : List Char → Option (Str × List Char)
  | [] => none
  | c :: rest =>
    if c = '"' then some ([], rest)
    else if c = '\\' then
      match rest with
      | [] => none
      | e :: rest₂ =>
        match unescapeChar e with
        | none => none
        | some u => (parseStrAux rest₂).map (fun p => (u :: p.1, p.2))
    else (parseStrAux rest).map (fun p => (c :: p.1, p.2))

/-- Split a longest prefix of decimal digits off the input. -/
def spanDigits : List Char → (List Nat × List Char)
  | [] => ([], [])
  | c :: rest =>
    match charDigit c with
    | some d => ((d :: (spanDigits rest).1), (spanDigits rest).2)
    | none => ([], c :: rest)

/-- Value of a most-significant-first digit list. -/
def valDigits (ds : List Nat) : Nat :=
  ds.foldl (fun a d => a * 10 + d) 0

mutual

/-- Modelled from the spec: recursive-descent JSON value parsing (the
decode half of `JSON.parse`, a JS builtin).  `fuel` bounds the nesting
depth. -/
def parseVal : Nat → List Char → Option (Json × List Char)
  | 0, _ => none
  | _ + 1, [] => none
  | fuel + 1, c :: rest =>
    if c = '"' then
      (parseStrAux rest).map (fun p => (Json.str p.1, p.2))
    else if c = '-' then
      if (spanDigits rest).1 = [] then none
      else some (Json.num (-(valDigits (spanDigits rest).1 : Int)), (spanDigits rest).2)
    else if c = '[' then
      (parseItems fuel rest).map (fun p => (Json.arr p.1, p.2))
    else if c = lbrace then
      (parseMembers fuel rest).map (fun p => (Json.obj p.1, p.2))
    else if c = 'n' then
      if rest.take 3 = ['u', 'l', 'l'] then some (Json.null, rest.drop 3) else none
    else if c = 't' then
      if rest.take 3 = ['r', 'u', 'e'] then some (Json.bool true, rest.drop 3) else none
    else if c = 'f' then
      if rest.take 4 = ['a', 'l', 's', 'e'] then some (Json.bool false, rest.drop 4) else none
    else if (charDigit c).isSome then
      some (Json.num ((valDigits (spanDigits (c :: rest)).1 : Nat) : Int),
        (spanDigits (c :: rest)).2)
    else none

/-- Parse the elements of an array after the opening bracket, up to and
including the closing bracket. -/
def parseItems : Nat → List Char → Option (List Json × List Char)
  | 0, _ => none
  | _ + 1, [] => none
  | fuel + 1, c :: rest =>
    if c = ']' then some ([], rest)
    else
      match parseVal fuel (c :: rest) with
      | none => none
      | some (v, r) =>
        match r with
        | [] => none
        | c₂ :: r₂ =>
          if c₂ = ',' then
            match parseItems fuel r₂ with
            | none => none
            | some (vs, r₃) => some (v :: vs, r₃)
          else if c₂ = ']' then some ([v], r₂)
          else none

/-- Parse the members of an object after the opening brace, up to and
including the closing brace. -/
def parseMembers : Nat → List Char → Option (List (Str × Json) × List Char)
  | 0, _ => none
  | _ + 1, [] => none
  | fuel + 1, c :: rest =>
    if c = rbrace then some ([], rest)
    else if c = '"' then
      match parseStrAux rest with
      | none => none
      | some (k, r) =>
        match r with
        | [] => none
        | c₂ :: r₂ =>
          if c₂ = ':' then
            match parseVal fuel r₂ with
            | none => none
            | some (v, r₃) =>
              match r₃ with
              | [] => none
              | c₃ :: r₄ =>
                if c₃ = ',' then
                  match parseMembers fuel r₄ with
                  | none => none
                  | some (ms, r₅) => some ((k, v) :: ms, r₅)
                else if c₃ = rbrace then some ([(k, v)], r₄)
                else none
          else none
    else none

end

/-- Modelled from the spec: `JSON.stringify` with no custom serializer. -/
def jsonStringify : Json → Str := printJson

/-- Modelled from the spec: `JSON.parse` — parse a complete wire payload,
rejecting trailing input. -/
def jsonParse (input : Str) : Option Json :=
  match parseVal (input.length + 1) input with
  | some (v, []) => some v
  | _ => none

/-! ## The RedisPubSub registry (embedding of `src/redis-pubsub.ts`) -/

/-- A value handed to a listener: either a decoded JSON value or the raw
undecoded payload (the fallback of the `catch` in `onMessage`). -/
inductive Val where
  | json : Json → Val
  | raw : Str → Val

/-- A listener, modelled by its observable fan-out behaviour: given the
delivered value, does the callback throw?  Every invocation is recorded
in the dispatch trace, so the value each listener receives is observable
separately. -/
abbrev Listener := Val → Bool

/-- Constructor-time configuration of `RedisPubSub` (the fields the
claims depend on).  `triggerTransform` receives the trigger and the
`pattern` option; the default is identity on the trigger string.
A custom deserializer or a reviver may throw, modelled by `none`. -/
structure Config where
  triggerTransform : String → Bool → String
  serializer : Option (Json → Str)
  deserializer : Option (Str → Option Val)
  reviver : Option (Json → Option Json)

/-- The default configuration: identity trigger transform, default JSON
codec, no reviver. -/
def cfg0 : Config :=
  { triggerTransform := fun trigger _ => trigger
    serializer := none
    deserializer := none
    reviver := none }

/-- The mutable registry state of a `RedisPubSub` instance:
`subscriptionMap` (id → (triggerName, listener)), `subsRefsMap`
(triggerName → list of ids) and the id counter. -/
structure RState where
  subscriptionMap : List (Nat × (String × Listener))
  subsRefsMap : List (String × List Nat)
  currentSubscriptionId : Nat

/-- The freshly constructed registry: both maps empty, counter `0`. -/
def s0 : RState :=
  { subscriptionMap := [], subsRefsMap := [], currentSubscriptionId := 0 }

/-- A transport call issued to the Redis subscriber/publisher client. -/
inductive TCall where
  | subLit : String → TCall
  | subPat : String → TCall
  | unsubLit : String → TCall
  | unsubPat : String → TCall
  | pub : String → Str → TCall
deriving DecidableEq

/-- Errors surfaced to callers of the registry. -/
inductive PSError where
  | subscribeFailed
  | unknownSubscription
deriving DecidableEq

/-- Result of a `subscribe` call: the post state, the settled future and
the transport calls issued. -/
structure SubscribeOut where
  state : RState
  result : Except PSError Nat
  calls : List TCall

/-- `RedisPubSub.subscribe` (lines 81–113).  The record is stored and the
id allocated before the refcount check; a fresh physical channel issues a
literal or pattern transport subscribe whose outcome is `transportFails`;
the callback either rejects the promise or installs the ChannelRefSet. -/
def RedisPubSub.subscribe (cfg : Config) (s : RState) (trigger : String)
    (onMsg : Listener) (pattern : Bool) (transportFails : Bool) : SubscribeOut :=
  let triggerName := cfg.triggerTransform trigger pattern
  let id := s.currentSubscriptionId
  let s₁ : RState :=
    { s with
      currentSubscriptionId := id + 1
      subscriptionMap := setL s.subscriptionMap id (triggerName, onMsg) }
  let doNew : SubscribeOut :=
    let call := if pattern then TCall.subPat triggerName else TCall.subLit triggerName
    if transportFails then
      { state := s₁, result := .error .subscribeFailed, calls := [call] }
    else
      { state :=
          { s₁ with
            subsRefsMap :=
              setL s₁.subsRefsMap triggerName
                ((lookupL s₁.subsRefsMap triggerName).getD [] ++ [id]) }
        result := .ok id
        calls := [call] }
  match lookupL s₁.subsRefsMap triggerName with
  | some refs =>
    if refs.length > 0 then
      { state := { s₁ with subsRefsMap := setL s₁.subsRefsMap triggerName (refs ++ [id]) }
        result := .ok id
        calls := [] }
    else doNew
  | none => doNew

/-- Result of an `unsubscribe` call: the post state, the synchronously
raised error (if any) and the transport calls issued. -/
structure UnsubscribeOut where
  state : RState
  error : Option PSError
  calls : List TCall

/-- The key under which `unsubscribe` looks up the ChannelRefSet: the
record's trigger name when the id has a record; otherwise the
destructuring default makes `triggerName` the JS `null`, which property
access coerces to the string key `"null"`. -/
def unsubKey (s : RState) (subId : Nat) : String :=
  match lookupL s.subscriptionMap subId with
  | some p => p.1
  | none => "null"

/-- `RedisPubSub.unsubscribe` (lines 115–136).  A singleton
ChannelRefSet triggers a literal and a pattern transport unsubscribe and
is deleted; otherwise the id's first occurrence is spliced out. -/
def RedisPubSub.unsubscribe (s : RState) (subId : Nat) : UnsubscribeOut :=
  let triggerName : String := unsubKey s subId
  match lookupL s.subsRefsMap triggerName with
  | none => { state := s, error := some .unknownSubscription, calls := [] }
  | some refs =>
    if refs.length = 1 then
      { state :=
          { s with
            subsRefsMap := eraseL s.subsRefsMap triggerName
            subscriptionMap := eraseL s.subscriptionMap subId }
        error := none
        calls := [TCall.unsubLit triggerName, TCall.unsubPat triggerName] }
    else
      let newRefs := if subId ∈ refs then refs.erase subId else refs
      { state :=
          { s with
            subsRefsMap := setL s.subsRefsMap triggerName newRefs
            subscriptionMap := eraseL s.subscriptionMap subId }
        error := none
        calls := [] }

/-- The dispatch key of `onMessage`: the JS expression
`pattern || channel` — an absent or empty-string pattern falls back to
the channel. -/
def jsKey (pattern : Option String) (channel : String) : String :=
  match pattern with
  | some p => if p = "" then channel else p
  | none => channel

/-- The body of the `try` in `onMessage` (lines 163–168): the custom
deserializer when configured, else `JSON.parse` with the optional
reviver.  `none` models a throw. -/
def decodeAttemptD (cfg : Config) (message : Str) : Option Val :=
  match cfg.deserializer with
  | some d => d message
  | none =>
    match jsonParse message with
    | none => none
    | some j =>
      match cfg.reviver with
      | none => some (Val.json j)
      | some r => (r j).map Val.json

/-- The decoded fan-out value: the `try`/`catch` makes any decode throw
fall back to the raw payload. -/
def decodePayload (cfg : Config) (message : Str) : Val :=
  (decodeAttemptD cfg message).getD (Val.raw message)

/-- A dispatch-loop abort: a listener threw, or an id in the
ChannelRefSet had no record (the JS destructuring of `undefined`). -/
inductive DispatchErr where
  | listenerThrew
  | missingRecord
deriving DecidableEq

/-- The fan-out loop of `onMessage` (lines 170–173): invoke each
listener in ChannelRefSet order with the decoded value; a throw
propagates, so later listeners are not reached. -/
def fanout (m : List (Nat × (String × Listener))) (v : Val) :
    List Nat → List (Nat × Val) × Option DispatchErr
  | [] => ([], none)
  | subId :: rest =>
    match lookupL m subId with
    | none => ([], some .missingRecord)
    | some (_, listener) =>
      if listener v then ([(subId, v)], some .listenerThrew)
      else
        ((subId, v) :: (fanout m v rest).1, (fanout m v rest).2)

/-- Result of an inbound message: the post state (dispatch never mutates
the registry), how many times the payload was decoded, the invocation
trace `(id, delivered value)` in order, and a propagated throw if any. -/
structure OnMessageOut where
  state : RState
  decodeAttempts : Nat
  invocations : List (Nat × Val)
  err : Option DispatchErr

/-- `RedisPubSub.onMessage` (lines 157–174): resolve the dispatch key,
drop the message when no non-empty ChannelRefSet exists, else decode the
payload once and fan out. -/
def RedisPubSub.onMessage (cfg : Config) (s : RState) (pattern : Option String)
    (channel : String) (message : Str) : OnMessageOut :=
  let key := jsKey pattern channel
  match lookupL s.subsRefsMap key with
  | none => { state := s, decodeAttempts := 0, invocations := [], err := none }
  | some subscribers =>
    if subscribers.length = 0 then
      { state := s, decodeAttempts := 0, invocations := [], err := none }
    else
      let parsed := decodePayload cfg message
      { state := s
        decodeAttempts := 1
        invocations := (fanout s.subscriptionMap parsed subscribers).1
        err := (fanout s.subscriptionMap parsed subscribers).2 }

/-- `RedisPubSub.publish` (lines 77–79): encode with the custom
serializer when configured, else `JSON.stringify`, and send on the raw
trigger name. -/
def RedisPubSub.publish (cfg : Config) (trigger : String) (payload : Json) : TCall :=
  TCall.pub trigger
    (match cfg.serializer with
     | some f => f payload
     | none => jsonStringify payload)

/-- The wire payload of a publish transport call. -/
def wireOf : TCall → Str
  | .pub _ w => w
  | _ => []

/-- A registry operation, for stating invariants over operation
sequences.  A `sub` carries the transport's answer to a fresh physical
subscribe. -/
inductive Op where
  | sub : String → Listener → Bool → Bool → Op
  | unsub : Nat → Op

/-- The state reached after one operation. -/
def applyOp (cfg : Config) (s : RState) : Op → RState
  | .sub trigger l pattern transportFails =>
    (RedisPubSub.subscribe cfg s trigger l pattern transportFails).state
  | .unsub i => (RedisPubSub.unsubscribe s i).state

/-- The trigger name recorded for an id, if any. -/
def lookupTrig (s : RState) (i : Nat) : Option String :=
  (lookupL s.subscriptionMap i).map Prod.fst

/-- The registry invariant maintained by every operation: both maps have
distinct keys, every ChannelRefSet is duplicate-free, every id in a
ChannelRefSet has a record whose trigger is that ChannelRefSet's key,
and all ids are below the counter. -/
def RegInv (s : RState) : Prop :=
  keysND s.subscriptionMap ∧ keysND s.subsRefsMap ∧
  (∀ e ∈ s.subsRefsMap, e.2.Nodup ∧
    ∀ i ∈ e.2, lookupTrig s i = some e.1 ∧ i < s.currentSubscriptionId) ∧
  (∀ r ∈ s.subscriptionMap, r.1 < s.currentSubscriptionId)

/-- A listener that never throws. -/
def lOk : Listener := fun _ => false

/-- A listener that always throws. -/
def lThrow : Listener := fun _ => true

/-- Head-character test used to delimit number parsing. -/
def noDigitStartB (l : List Char) : Bool :=
  match l with
  | [] => true
  | c :: _ => (charDigit c).isNone

mutual

/-- Parser fuel sufficient for a printed value. -/
def jfuel : Json → Nat
  | .arr xs => ifuel xs + 1
  | .obj kvs => kfuel kvs + 1
  | _ => 1

/-- Parser fuel sufficient for printed array elements. -/
def ifuel : List Json → Nat
  | [] => 1
  | x :: xs => max (jfuel x) (ifuel xs) + 1

/-- Parser fuel sufficient for printed object members. -/
def kfuel : List (Str × Json) → Nat
  | [] => 1
  | (_, v) :: kvs => max (jfuel v) (kfuel kvs) + 1

end

/-- Registry with a throwing listener (id `0`) ahead of a well-behaved
one (id `1`) on channel `"ch"`. -/
def s2 : RState :=
  { subscriptionMap := [(0, ("ch", lThrow)), (1, ("ch", lOk))]
    subsRefsMap := [("ch", [0, 1])]
    currentSubscriptionId := 2 }

/-- Registry with a single subscription whose trigger name is the
four-character string `"null"`. -/
def s3 : RState :=
  { subscriptionMap := [(0, ("null", lOk))]
    subsRefsMap := [("null", [0])]
    currentSubscriptionId := 1 }

/-- Registry with two well-behaved subscriptions on channel `"ch"`. -/
def s4 : RState :=
  { subscriptionMap := [(0, ("ch", lOk)), (1, ("ch", lOk))]
    subsRefsMap := [("ch", [0, 1])]
    currentSubscriptionId := 2 }

/-- Registry with one well-behaved subscription on channel `"ch"`. -/
def s5 : RState :=
  { subscriptionMap := [(0, ("ch", lOk))]
    subsRefsMap := [("ch", [0])]
    currentSubscriptionId := 1 }

/-- Registry with one subscription keyed by the empty-string pattern. -/
def s8 : RState :=
  { subscriptionMap := [(0, ("", lOk))]
    subsRefsMap := [("", [0])]
    currentSubscriptionId := 1 }

/-- A trigger transform mapping every trigger to the physical channel
`"ch"`. -/
def cfgShared : Config :=
  { cfg0 with triggerTransform := fun _ _ => "ch" }

/-- The registry reached from the fresh state by subscribing to the
triggers `"a"` then `"b"`, both transformed to the channel `"ch"`, with
the transport accepting the first subscribe. -/
def c6state : RState :=
  (RedisPubSub.subscribe cfgShared
    (RedisPubSub.subscribe cfgShared s0 "a" lOk false false).state
    "b" lOk false false).state

/-! ## Association-list lemmas -/

theorem lookupL_eq_none_of_not_mem {κ α : Type} [DecidableEq κ]
    {m : List (κ × α)} {k : κ} (h : k ∉ m.map Prod.fst) : lookupL m k = none := by
  induction m with
  | nil => rfl
  | cons e rest ih =>
    simp only [List.map_cons, List.mem_cons] at h
    push_neg at h
    obtain ⟨k₀, v₀⟩ := e
    simp only [lookupL]
    rw [if_neg (by simpa using fun hk => h.1 hk.symm)]
    exact ih h.2

theorem mem_of_lookupL {κ α : Type} [DecidableEq κ]
    {m : List (κ × α)} {k : κ} {v : α} (h : lookupL m k = some v) : (k, v) ∈ m := by
  induction m with
  | nil => simp [lookupL] at h
  | cons e rest ih =>
    obtain ⟨k₀, v₀⟩ := e
    simp only [lookupL] at h
    by_cases hk : k₀ = k
    · rw [if_pos hk] at h
      subst hk
      simp [← Option.some_inj.mp h]
    · rw [if_neg hk] at h
      exact List.mem_cons_of_mem _ (ih h)

theorem lookupL_setL_self {κ α : Type} [DecidableEq κ]
    (m : List (κ × α)) (k : κ) (v : α) : lookupL (setL m k v) k = some v := by
  induction m with
  | nil => simp [setL, lookupL]
  | cons e rest ih =>
    obtain ⟨k₀, v₀⟩ := e
    by_cases h : k₀ = k
    · simp [setL, lookupL, h]
    · simp [setL, lookupL, h, ih]

theorem lookupL_setL_ne {κ α : Type} [DecidableEq κ]
    {m : List (κ × α)} {k k' : κ} (v : α) (h : k' ≠ k) :
    lookupL (setL m k v) k' = lookupL m k' := by
  have h' : ¬(k = k') := fun he => h he.symm
  induction m with
  | nil =>
    simp only [setL, lookupL]
    rw [if_neg h']
  | cons e rest ih =>
    obtain ⟨k₀, v₀⟩ := e
    by_cases hk : k₀ = k
    · subst hk
      simp only [setL, if_pos rfl, lookupL]
      rw [if_neg h', if_neg h']
    · simp only [setL, if_neg hk, lookupL]
      by_cases hk' : k₀ = k'
      · rw [if_pos hk', if_pos hk']
      · rw [if_neg hk', if_neg hk', ih]

theorem eraseL_sublist {κ α : Type} [DecidableEq κ]
    (m : List (κ × α)) (k : κ) : (eraseL m k).Sublist m := by
  induction m with
  | nil => simp [eraseL]
  | cons e rest ih =>
    obtain ⟨k₀, v₀⟩ := e
    by_cases h : k₀ = k
    · rw [eraseL, if_pos h]
      exact List.sublist_cons_self _ _
    · rw [eraseL, if_neg h]
      exact ih.cons₂ _

theorem keysND_eraseL {κ α : Type} [DecidableEq κ]
    {m : List (κ × α)} (k : κ) (h : keysND m) : keysND (eraseL m k) :=
  h.sublist ((eraseL_sublist m k).map Prod.fst)

theorem lookupL_eraseL_ne {κ α : Type} [DecidableEq κ]
    {m : List (κ × α)} {k k' : κ} (h : k' ≠ k) :
    lookupL (eraseL m k) k' = lookupL m k' := by
  have h' : ¬(k = k') := fun he => h he.symm
  induction m with
  | nil => rfl
  | cons e rest ih =>
    obtain ⟨k₀, v₀⟩ := e
    by_cases hk : k₀ = k
    · subst hk
      simp only [eraseL, if_true]
      simp only [lookupL]
      rw [if_neg h']
    · simp only [eraseL, if_neg hk, lookupL]
      by_cases hk' : k₀ = k'
      · rw [if_pos hk', if_pos hk']
      · rw [if_neg hk', if_neg hk', ih]

theorem lookupL_eraseL_self {κ α : Type} [DecidableEq κ]
    {m : List (κ × α)} {k : κ} (h : keysND m) : lookupL (eraseL m k) k = none := by
  induction m with
  | nil => rfl
  | cons e rest ih =>
    obtain ⟨k₀, v₀⟩ := e
    simp only [keysND, List.map_cons, List.nodup_cons] at h
    by_cases hk : k₀ = k
    · subst hk
      simp only [eraseL, if_pos rfl]
      exact lookupL_eq_none_of_not_mem h.1
    · simp only [eraseL, if_neg hk, lookupL, if_neg hk]
      exact ih h.2

theorem keys_setL_of_mem {κ α : Type} [DecidableEq κ]
    {m : List (κ × α)} {k : κ} (v : α) (h : k ∈ m.map Prod.fst) :
    (setL m k v).map Prod.fst = m.map Prod.fst := by
  induction m with
  | nil => simp at h
  | cons e rest ih =>
    obtain ⟨k₀, v₀⟩ := e
    by_cases hk : k₀ = k
    · subst hk
      simp [setL]
    · simp only [List.map_cons, List.mem_cons] at h
      rcases h with h | h
      · exact absurd h.symm hk
      · simp [setL, hk, ih h]

theorem keys_setL_of_not_mem {κ α : Type} [DecidableEq κ]
    {m : List (κ × α)} {k : κ} (v : α) (h : k ∉ m.map Prod.fst) :
    (setL m k v).map Prod.fst = m.map Prod.fst ++ [k] := by
  induction m with
  | nil => simp [setL]
  | cons e rest ih =>
    obtain ⟨k₀, v₀⟩ := e
    simp only [List.map_cons, List.mem_cons] at h
    push_neg at h
    simp only [setL]
    rw [if_neg (fun he => h.1 he.symm)]
    simp [ih h.2]

theorem keysND_setL {κ α : Type} [DecidableEq κ]
    {m : List (κ × α)} (k : κ) (v : α) (h : keysND m) : keysND (setL m k v) := by
  by_cases hk : k ∈ m.map Prod.fst
  · unfold keysND
    rw [keys_setL_of_mem v hk]
    exact h
  · unfold keysND
    rw [keys_setL_of_not_mem v hk]
    refine List.Nodup.append h (by simp) ?_
    intro a ha hb
    simp only [List.mem_singleton] at hb
    subst hb
    exact hk ha

theorem mem_setL {κ α : Type} [DecidableEq κ]
    {m : List (κ × α)} {k : κ} {v : α} {e : κ × α} (h : e ∈ setL m k v) :
    e = (k, v) ∨ e ∈ m := by
  induction m with
  | nil => simpa [setL] using h
  | cons e₀ rest ih =>
    obtain ⟨k₀, v₀⟩ := e₀
    by_cases hk : k₀ = k
    · simp only [setL, if_pos hk, List.mem_cons] at h
      rcases h with h | h
      · exact Or.inl h
      · exact Or.inr (List.mem_cons_of_mem _ h)
    · simp only [setL, if_neg hk, List.mem_cons] at h
      rcases h with h | h
      · exact Or.inr (by simp [h])
      · rcases ih h with h | h
        · exact Or.inl h
        · exact Or.inr (List.mem_cons_of_mem _ h)

theorem keysND_eq_of_mem {κ α : Type}
    {m : List (κ × α)} (hnd : keysND m) {a b : κ × α}
    (ha : a ∈ m) (hb : b ∈ m) (hk : a.1 = b.1) : a = b := by
  induction m with
  | nil => simp at ha
  | cons e rest ih =>
    simp only [keysND, List.map_cons, List.nodup_cons] at hnd
    rcases List.mem_cons.mp ha with ha | ha <;>
      rcases List.mem_cons.mp hb with hb | hb
    · rw [ha, hb]
    · exact absurd (hk ▸ (List.mem_map_of_mem Prod.fst hb)) (ha ▸ hnd.1)
    · exact absurd ((hk ▸ (List.mem_map_of_mem Prod.fst ha)) : b.1 ∈ _) (hb ▸ hnd.1)
    · exact ih hnd.2 ha hb

/-! ## Digit and number lemmas -/

theorem charDigit_digitChar (d : Nat) (h : d < 10) : charDigit (digitChar d) = some d := by
  match d with
  | 0 => decide
  | 1 => decide
  | 2 => decide
  | 3 => decide
  | 4 => decide
  | 5 => decide
  | 6 => decide
  | 7 => decide
  | 8 => decide
  | 9 => decide
  | n + 10 => exact absurd h (by omega)

theorem digitChar_ne (d : Nat) :
    digitChar d ≠ '"' ∧ digitChar d ≠ '-' ∧ digitChar d ≠ '[' ∧
    digitChar d ≠ lbrace ∧ digitChar d ≠ 'n' ∧ digitChar d ≠ 't' ∧
    digitChar d ≠ 'f' ∧ digitChar d ≠ ']' := by
  match d with
  | 0 => decide
  | 1 => decide
  | 2 => decide
  | 3 => decide
  | 4 => decide
  | 5 => decide
  | 6 => decide
  | 7 => decide
  | 8 => decide
  | n + 9 =>
    have h : digitChar (n + 9) = '9' := rfl
    rw [h]
    decide

theorem natDigitsMSB_ne_nil (n : Nat) : natDigitsMSB n ≠ [] := by
  rw [natDigitsMSB]
  split
  · simp
  · simp

theorem natDigitsMSB_lt (n : Nat) : ∀ d ∈ natDigitsMSB n, d < 10 := by
  induction n using Nat.strong_induction_on with
  | _ n ih =>
    rw [natDigitsMSB]
    split
    · intro d hd
      simp only [List.mem_singleton] at hd
      omega
    · intro d hd
      rcases List.mem_append.mp hd with hd | hd
      · exact ih (n / 10) (Nat.div_lt_self (by omega) (by omega)) d hd
      · simp only [List.mem_singleton] at hd
        subst hd
        exact Nat.mod_lt _ (by omega)

theorem valDigits_append_one (l : List Nat) (m : Nat) :
    valDigits (l ++ [m]) = valDigits l * 10 + m := by
  unfold valDigits
  rw [List.foldl_append]
  rfl

theorem valDigits_natDigitsMSB (n : Nat) : valDigits (natDigitsMSB n) = n := by
  induction n using Nat.strong_induction_on with
  | _ n ih =>
    rw [natDigitsMSB]
    split
    · simp [valDigits]
    · rw [valDigits_append_one, ih (n / 10) (Nat.div_lt_self (by omega) (by omega))]
      omega

theorem spanDigits_exact (ds : List Nat) (h : ∀ d ∈ ds, d < 10)
    (rest : List Char) (hr : noDigitStartB rest = true) :
    spanDigits (ds.map digitChar ++ rest) = (ds, rest) := by
  induction ds with
  | nil =>
    simp only [List.map_nil, List.nil_append]
    match rest, hr with
    | [], _ => rfl
    | c :: r, hr =>
      have hc : charDigit c = none := by
        simpa [noDigitStartB, Option.isNone_iff_eq_none] using hr
      simp [spanDigits, hc]
  | cons d ds ih =>
    have hd : charDigit (digitChar d) = some d :=
      charDigit_digitChar d (h d (by simp))
    have ih := ih (fun x hx => h x (by simp [hx])) 
    simp [spanDigits, hd, ih]

/-! ## String-literal round trip -/

theorem parseStrAux_print (s : Str) (rest : List Char) :
    parseStrAux ((s.map escapeChar).flatten ++ '"' :: rest) = some (s, rest) := by
  induction s with
  | nil =>
    rw [parseStrAux.eq_def]
    simp
  | cons c s ih =>
    by_cases h₁ : c = '"'
    · subst h₁
      simp only [List.map_cons, List.flatten_cons]
      have he : escapeChar '"' = ['\\', '"'] := by decide
      rw [he]
      simp only [List.cons_append, List.append_assoc]
      rw [parseStrAux.eq_def]
      simp [unescapeChar, ih]
    · by_cases h₂ : c = '\\'
      · subst h₂
        simp only [List.map_cons, List.flatten_cons]
        have he : escapeChar '\\' = ['\\', '\\'] := by decide
        rw [he]
        simp only [List.cons_append, List.append_assoc]
        rw [parseStrAux.eq_def]
        simp [unescapeChar, ih]
      · by_cases h₃ : c = '\n'
        · subst h₃
          simp only [List.map_cons, List.flatten_cons]
          have he : escapeChar '\n' = ['\\', 'n'] := by decide
          rw [he]
          simp only [List.cons_append, List.append_assoc]
          rw [parseStrAux.eq_def]
          simp [unescapeChar, ih]
        · by_cases h₄ : c = '\t'
          · subst h₄
            simp only [List.map_cons, List.flatten_cons]
            have he : escapeChar '\t' = ['\\', 't'] := by decide
            rw [he]
            simp only [List.cons_append, List.append_assoc]
            rw [parseStrAux.eq_def]
            simp [unescapeChar, ih]
          · by_cases h₅ : c = '\r'
            · subst h₅
              simp only [List.map_cons, List.flatten_cons]
              have he : escapeChar '\r' = ['\\', 'r'] := by decide
              rw [he]
              simp only [List.cons_append, List.append_assoc]
              rw [parseStrAux.eq_def]
              simp [unescapeChar, ih]
            · have he : escapeChar c = [c] := by
                simp [escapeChar, h₁, h₂, h₃, h₄, h₅]
              simp only [List.map_cons, List.flatten_cons, he, List.singleton_append,
                List.cons_append]
              rw [parseStrAux.eq_def]
              simp only []
              rw [if_neg h₁, if_neg h₂]
              simp [ih]

/-! ## Evaluation lemmas for the printer and fuel measure -/

@[simp] theorem printJson_null : printJson Json.null = ['n', 'u', 'l', 'l'] := by
  rw [printJson.eq_def]

@[simp] theorem printJson_true : printJson (Json.bool true) = ['t', 'r', 'u', 'e'] := by
  rw [printJson.eq_def]
  simp

@[simp] theorem printJson_false : printJson (Json.bool false) = ['f', 'a', 'l', 's', 'e'] := by
  rw [printJson.eq_def]
  simp

@[simp] theorem printJson_num (n : Int) : printJson (Json.num n) = printInt n := by
  rw [printJson.eq_def]

@[simp] theorem printJson_str (s : Str) : printJson (Json.str s) = printStr s := by
  rw [printJson.eq_def]

@[simp] theorem printJson_arr (xs : List Json) :
    printJson (Json.arr xs) = '[' :: printArr xs ++ [']'] := by
  rw [printJson.eq_def]

@[simp] theorem printJson_obj (kvs : List (Str × Json)) :
    printJson (Json.obj kvs) = lbrace :: printObjM kvs ++ [rbrace] := by
  rw [printJson.eq_def]

@[simp] theorem printArr_nil : printArr [] = [] := by
  rw [printArr.eq_def]

@[simp] theorem printArr_single (x : Json) : printArr [x] = printJson x := by
  rw [printArr.eq_def]

@[simp] theorem printArr_cons₂ (x y : Json) (xs : List Json) :
    printArr (x :: y :: xs) = printJson x ++ ',' :: printArr (y :: xs) := by
  rw [printArr.eq_def]

@[simp] theorem printObjM_nil : printObjM [] = [] := by
  rw [printObjM.eq_def]

@[simp] theorem printObjM_single (k : Str) (v : Json) :
    printObjM [(k, v)] = printStr k ++ ':' :: printJson v := by
  rw [printObjM.eq_def]

@[simp] theorem printObjM_cons₂ (k : Str) (v : Json) (m : Str × Json)
    (kvs : List (Str × Json)) :
    printObjM ((k, v) :: m :: kvs) = printStr k ++ ':' :: printJson v ++ ',' :: printObjM (m :: kvs) := by
  rw [printObjM.eq_def]

@[simp] theorem jfuel_null : jfuel Json.null = 1 := by rw [jfuel.eq_def]

@[simp] theorem jfuel_bool (b : Bool) : jfuel (Json.bool b) = 1 := by rw [jfuel.eq_def]

@[simp] theorem jfuel_num (n : Int) : jfuel (Json.num n) = 1 := by rw [jfuel.eq_def]

@[simp] theorem jfuel_str (s : Str) : jfuel (Json.str s) = 1 := by rw [jfuel.eq_def]

@[simp] theorem jfuel_arr (xs : List Json) : jfuel (Json.arr xs) = ifuel xs + 1 := by
  rw [jfuel.eq_def]

@[simp] theorem jfuel_obj (kvs : List (Str × Json)) :
    jfuel (Json.obj kvs) = kfuel kvs + 1 := by
  rw [jfuel.eq_def]

@[simp] theorem ifuel_nil : ifuel [] = 1 := by rw [ifuel.eq_def]

@[simp] theorem ifuel_cons (x : Json) (xs : List Json) :
    ifuel (x :: xs) = max (jfuel x) (ifuel xs) + 1 := by
  rw [ifuel.eq_def]

@[simp] theorem kfuel_nil : kfuel [] = 1 := by rw [kfuel.eq_def]

@[simp] theorem kfuel_cons (k : Str) (v : Json) (kvs : List (Str × Json)) :
    kfuel ((k, v) :: kvs) = max (jfuel v) (kfuel kvs) + 1 := by
  rw [kfuel.eq_def]

theorem noDigitStartB_nil : noDigitStartB [] = true := rfl

theorem noDigitStartB_comma (l : List Char) : noDigitStartB (',' :: l) = true := rfl

theorem noDigitStartB_rbracket (l : List Char) : noDigitStartB (']' :: l) = true := rfl

theorem noDigitStartB_rbrace (l : List Char) : noDigitStartB (rbrace :: l) = true := rfl

theorem spanDigits_printNatC (n : Nat) (rest : List Char)
    (hr : noDigitStartB rest = true) :
    spanDigits (printNatC n ++ rest) = (natDigitsMSB n, rest) :=
  spanDigits_exact _ (natDigitsMSB_lt n) rest hr

theorem printJson_head (v : Json) : ∃ c cs, printJson v = c :: cs ∧ c ≠ ']' := by
  cases v with
  | null => exact ⟨'n', _, printJson_null, by decide⟩
  | bool b =>
    cases b with
    | true => exact ⟨'t', _, printJson_true, by decide⟩
    | false => exact ⟨'f', _, printJson_false, by decide⟩
  | num n =>
    by_cases hneg : n < 0
    · refine ⟨'-', printNatC n.natAbs, ?_, by decide⟩
      rw [printJson_num, printInt, if_pos hneg]
    · obtain ⟨d₀, ds, hd⟩ := List.exists_cons_of_ne_nil (natDigitsMSB_ne_nil n.natAbs)
      refine ⟨digitChar d₀, ds.map digitChar, ?_, (digitChar_ne d₀).2.2.2.2.2.2.2⟩
      rw [printJson_num, printInt, if_neg hneg, printNatC, hd, List.map_cons]
  | str s => exact ⟨'"', _, printJson_str s, by decide⟩
  | arr xs => exact ⟨'[', _, printJson_arr xs, by decide⟩
  | obj kvs => exact ⟨lbrace, _, printJson_obj kvs, by decide⟩

/-! ## Leaf round-trip lemmas -/

theorem parseVal_print_null (rest : List Char) (f : Nat) :
    parseVal (f + 1) (['n', 'u', 'l', 'l'] ++ rest) = some (Json.null, rest) := by
  rw [parseVal.eq_def]
  simp [lbrace]

theorem parseVal_print_true (rest : List Char) (f : Nat) :
    parseVal (f + 1) (['t', 'r', 'u', 'e'] ++ rest) = some (Json.bool true, rest) := by
  rw [parseVal.eq_def]
  simp [lbrace]

theorem parseVal_print_false (rest : List Char) (f : Nat) :
    parseVal (f + 1) (['f', 'a', 'l', 's', 'e'] ++ rest) = some (Json.bool false, rest) := by
  rw [parseVal.eq_def]
  simp [lbrace]

theorem parseVal_print_str (s : Str) (rest : List Char) (f : Nat) :
    parseVal (f + 1) (printStr s ++ rest) = some (Json.str s, rest) := by
  have hs : printStr s ++ rest = '"' :: ((s.map escapeChar).flatten ++ '"' :: rest) := by
    simp [printStr]
  rw [hs, parseVal.eq_def]
  simp [parseStrAux_print]

theorem parseVal_print_num (n : Int) (rest : List Char) (f : Nat)
    (hr : noDigitStartB rest = true) :
    parseVal (f + 1) (printInt n ++ rest) = some (Json.num n, rest) := by
  obtain ⟨d₀, ds, hd⟩ := List.exists_cons_of_ne_nil (natDigitsMSB_ne_nil n.natAbs)
  have hd₀lt : d₀ < 10 := natDigitsMSB_lt n.natAbs d₀ (by rw [hd]; simp)
  have hspan : spanDigits (List.map digitChar (d₀ :: ds) ++ rest) = (d₀ :: ds, rest) :=
    spanDigits_exact (d₀ :: ds)
      (fun x hx => natDigitsMSB_lt n.natAbs x (hd ▸ hx)) rest hr
  have hval : valDigits (d₀ :: ds) = n.natAbs := by
    rw [← hd, valDigits_natDigitsMSB]
  by_cases hneg : n < 0
  · have hp : printInt n ++ rest = '-' :: (printNatC n.natAbs ++ rest) := by
      rw [printInt, if_pos hneg]
      simp
    rw [hp, parseVal.eq_def]
    have hpn : printNatC n.natAbs ++ rest = List.map digitChar (d₀ :: ds) ++ rest := by
      rw [printNatC, hd]
    simp only []
    rw [if_neg (by decide : ¬('-' = '"'))]
    simp only [if_true]
    rw [hpn, hspan]
    simp only []
    rw [if_neg (by simp : ¬(d₀ :: ds = []))]
    rw [hval]
    have hn : -((n.natAbs : Nat) : Int) = n := by omega
    rw [hn]
  · have hp : printInt n ++ rest = digitChar d₀ :: (List.map digitChar ds ++ rest) := by
      rw [printInt, if_neg hneg, printNatC, hd]
      simp
    rw [hp, parseVal.eq_def]
    obtain ⟨h1, h2, h3, h4, h5, h6, h7, _⟩ := digitChar_ne d₀
    simp only []
    rw [if_neg h1, if_neg h2, if_neg h3, if_neg h4, if_neg h5, if_neg h6, if_neg h7]
    have hback : digitChar d₀ :: (List.map digitChar ds ++ rest) =
        List.map digitChar (d₀ :: ds) ++ rest := by simp
    rw [charDigit_digitChar d₀ hd₀lt, hback, hspan]
    simp only [Option.isSome_some, if_true]
    rw [hval]
    have hn : ((n.natAbs : Nat) : Int) = n := by omega
    rw [hn]

/-! ## Full print/parse round trip -/

mutual

theorem parseVal_print : ∀ (v : Json) (rest : List Char) (fuel : Nat),
    jfuel v ≤ fuel → noDigitStartB rest = true →
    parseVal fuel (printJson v ++ rest) = some (v, rest)
  | Json.null, rest, fuel, hf, _ => by
    cases fuel with
    | zero => simp at hf
    | succ f =>
      rw [printJson_null]
      exact parseVal_print_null rest f
  | Json.bool false, rest, fuel, hf, _ => by
    cases fuel with
    | zero => simp at hf
    | succ f =>
      rw [printJson_false]
      exact parseVal_print_false rest f
  | Json.bool true, rest, fuel, hf, _ => by
    cases fuel with
    | zero => simp at hf
    | succ f =>
      rw [printJson_true]
      exact parseVal_print_true rest f
  | Json.num n, rest, fuel, hf, hr => by
    cases fuel with
    | zero => simp at hf
    | succ f =>
      rw [printJson_num]
      exact parseVal_print_num n rest f hr
  | Json.str s, rest, fuel, hf, _ => by
    cases fuel with
    | zero => simp at hf
    | succ f =>
      rw [printJson_str]
      exact parseVal_print_str s rest f
  | Json.arr xs, rest, fuel, hf, _ => by
    cases fuel with
    | zero => simp at hf
    | succ f =>
      have hfx : ifuel xs ≤ f := by
        simp only [jfuel_arr] at hf
        omega
      have harr : printJson (Json.arr xs) ++ rest = '[' :: (printArr xs ++ ']' :: rest) := by
        rw [printJson_arr]
        simp
      rw [harr, parseVal.eq_def]
      simp only []
      rw [if_neg (by decide : ¬('[' = '"')), if_neg (by decide : ¬('[' = '-'))]
      simp only [if_true]
      rw [parseItems_print xs rest f hfx]
      rfl
  | Json.obj kvs, rest, fuel, hf, _ => by
    cases fuel with
    | zero => simp at hf
    | succ f =>
      have hfk : kfuel kvs ≤ f := by
        simp only [jfuel_obj] at hf
        omega
      have hobj : printJson (Json.obj kvs) ++ rest =
          lbrace :: (printObjM kvs ++ rbrace :: rest) := by
        rw [printJson_obj]
        simp
      rw [hobj, parseVal.eq_def]
      simp only []
      rw [if_neg (by decide : ¬(lbrace = '"')), if_neg (by decide : ¬(lbrace = '-')),
        if_neg (by decide : ¬(lbrace = '['))]
      simp only [if_true]
      rw [parseMembers_print kvs rest f hfk]
      rfl

theorem parseItems_print : ∀ (xs : List Json) (rest : List Char) (fuel : Nat),
    ifuel xs ≤ fuel → parseItems fuel (printArr xs ++ ']' :: rest) = some (xs, rest)
  | [], rest, fuel, hf => by
    cases fuel with
    | zero => simp at hf
    | succ f =>
      rw [printArr_nil, List.nil_append, parseItems.eq_def]
      simp
  | [x], rest, fuel, hf => by
    cases fuel with
    | zero => simp at hf
    | succ f =>
      have hjx : jfuel x ≤ f := by
        have h₁ := Nat.le_max_left (jfuel x) (ifuel ([] : List Json))
        simp only [ifuel_cons] at hf
        omega
      obtain ⟨c, cs, hpc, hcne⟩ := printJson_head x
      have hin : printArr [x] ++ ']' :: rest = c :: (cs ++ ']' :: rest) := by
        rw [printArr_single, hpc]
        simp
      rw [hin, parseItems.eq_def]
      simp only []
      rw [if_neg hcne]
      have hpv : parseVal f (c :: (cs ++ ']' :: rest)) = some (x, ']' :: rest) := by
        have he : c :: (cs ++ ']' :: rest) = printJson x ++ ']' :: rest := by
          rw [hpc]
          simp
        rw [he]
        exact parseVal_print x (']' :: rest) f hjx (noDigitStartB_rbracket rest)
      rw [hpv]
      simp
  | x :: y :: ys, rest, fuel, hf => by
    cases fuel with
    | zero => simp at hf
    | succ f =>
      have hjx : jfuel x ≤ f := by
        have h₁ := Nat.le_max_left (jfuel x) (ifuel (y :: ys))
        simp only [ifuel_cons] at hf
        omega
      have hix : ifuel (y :: ys) ≤ f := by
        have h₂ := Nat.le_max_right (jfuel x) (ifuel (y :: ys))
        simp only [ifuel_cons] at hf h₂ ⊢
        omega
      obtain ⟨c, cs, hpc, hcne⟩ := printJson_head x
      have hin : printArr (x :: y :: ys) ++ ']' :: rest =
          c :: (cs ++ ',' :: (printArr (y :: ys) ++ ']' :: rest)) := by
        rw [printArr_cons₂, hpc]
        simp
      rw [hin, parseItems.eq_def]
      simp only []
      rw [if_neg hcne]
      have hpv : parseVal f (c :: (cs ++ ',' :: (printArr (y :: ys) ++ ']' :: rest))) =
          some (x, ',' :: (printArr (y :: ys) ++ ']' :: rest)) := by
        have he : c :: (cs ++ ',' :: (printArr (y :: ys) ++ ']' :: rest)) =
            printJson x ++ ',' :: (printArr (y :: ys) ++ ']' :: rest) := by
          rw [hpc]
          simp
        rw [he]
        exact parseVal_print x _ f hjx (noDigitStartB_comma _)
      rw [hpv]
      simp only []
      rw [parseItems_print (y :: ys) rest f hix]
      simp

theorem parseMembers_print : ∀ (kvs : List (Str × Json)) (rest : List Char) (fuel : Nat),
    kfuel kvs ≤ fuel → parseMembers fuel (printObjM kvs ++ rbrace :: rest) = some (kvs, rest)
  | [], rest, fuel, hf => by
    cases fuel with
    | zero => simp at hf
    | succ f =>
      rw [printObjM_nil, List.nil_append, parseMembers.eq_def]
      simp
  | [(k, v)], rest, fuel, hf => by
    cases fuel with
    | zero => simp at hf
    | succ f =>
      have hjv : jfuel v ≤ f := by
        have h₁ := Nat.le_max_left (jfuel v) (kfuel ([] : List (Str × Json)))
        simp only [kfuel_cons] at hf
        omega
      have hin : printObjM [(k, v)] ++ rbrace :: rest =
          '"' :: ((k.map escapeChar).flatten ++ '"' ::
            (':' :: (printJson v ++ rbrace :: rest))) := by
        rw [printObjM_single, printStr]
        simp
      rw [hin, parseMembers.eq_def]
      simp only []
      rw [if_neg (by decide : ¬('"' = rbrace))]
      simp only [if_true]
      rw [parseStrAux_print k (':' :: (printJson v ++ rbrace :: rest))]
      simp only []
      rw [parseVal_print v (rbrace :: rest) f hjv (noDigitStartB_rbrace rest)]
      simp only []
      rw [if_neg (by decide : ¬(rbrace = ','))]
      simp
  | (k, v) :: kv₂ :: kvs₂, rest, fuel, hf => by
    cases fuel with
    | zero => simp at hf
    | succ f =>
      have hjv : jfuel v ≤ f := by
        have h₁ := Nat.le_max_left (jfuel v) (kfuel (kv₂ :: kvs₂))
        simp only [kfuel_cons] at hf
        omega
      have hkk : kfuel (kv₂ :: kvs₂) ≤ f := by
        have h₂ := Nat.le_max_right (jfuel v) (kfuel (kv₂ :: kvs₂))
        simp only [kfuel_cons] at hf
        omega
      have hin : printObjM ((k, v) :: kv₂ :: kvs₂) ++ rbrace :: rest =
          '"' :: ((k.map escapeChar).flatten ++ '"' ::
            (':' :: (printJson v ++ ',' :: (printObjM (kv₂ :: kvs₂) ++ rbrace :: rest)))) := by
        rw [printObjM_cons₂, printStr]
        simp
      rw [hin, parseMembers.eq_def]
      simp only []
      rw [if_neg (by decide : ¬('"' = rbrace))]
      simp only [if_true]
      rw [parseStrAux_print k
        (':' :: (printJson v ++ ',' :: (printObjM (kv₂ :: kvs₂) ++ rbrace :: rest)))]
      simp only []
      rw [parseVal_print v _ f hjv (noDigitStartB_comma _)]
      simp only []
      rw [parseMembers_print (kv₂ :: kvs₂) rest f hkk]
      simp

end

theorem printJson_length_pos (v : Json) : 1 ≤ (printJson v).length := by
  obtain ⟨c, cs, hpc, _⟩ := printJson_head v
  rw [hpc]
  simp

mutual

theorem jfuel_le : ∀ v : Json, jfuel v ≤ (printJson v).length + 1
  | Json.null => by
    rw [jfuel_null, printJson_null]
    omega
  | Json.bool false => by
    rw [jfuel_bool, printJson_false]
    omega
  | Json.bool true => by
    rw [jfuel_bool, printJson_true]
    omega
  | Json.num n => by
    rw [jfuel_num]
    omega
  | Json.str s => by
    rw [jfuel_str]
    omega
  | Json.arr xs => by
    have h := ifuel_le xs
    rw [jfuel_arr, printJson_arr]
    simp only [List.length_cons, List.length_append]
    omega
  | Json.obj kvs => by
    have h := kfuel_le kvs
    rw [jfuel_obj, printJson_obj]
    simp only [List.length_cons, List.length_append]
    omega

theorem ifuel_le : ∀ xs : List Json, ifuel xs ≤ (printArr xs).length + 2
  | [] => by
    rw [ifuel_nil, printArr_nil]
    omega
  | [x] => by
    have h := jfuel_le x
    rw [ifuel_cons, ifuel_nil, printArr_single]
    have hm : max (jfuel x) 1 ≤ (printJson x).length + 1 :=
      Nat.max_le.mpr ⟨h, by omega⟩
    omega
  | x :: y :: ys => by
    have h₁ := jfuel_le x
    have h₂ := ifuel_le (y :: ys)
    have hp := printJson_length_pos x
    rw [ifuel_cons, printArr_cons₂]
    simp only [List.length_append, List.length_cons]
    have hm : max (jfuel x) (ifuel (y :: ys)) ≤
        (printJson x).length + (printArr (y :: ys)).length + 1 :=
      Nat.max_le.mpr ⟨by omega, by omega⟩
    omega

theorem kfuel_le : ∀ kvs : List (Str × Json), kfuel kvs ≤ (printObjM kvs).length + 2
  | [] => by
    rw [kfuel_nil, printObjM_nil]
    omega
  | [(k, v)] => by
    have h := jfuel_le v
    rw [kfuel_cons, kfuel_nil, printObjM_single]
    simp only [List.length_append, List.length_cons]
    have hm : max (jfuel v) 1 ≤ (printJson v).length + 1 :=
      Nat.max_le.mpr ⟨h, by omega⟩
    omega
  | (k, v) :: m :: kvs => by
    have h₁ := jfuel_le v
    have h₂ := kfuel_le (m :: kvs)
    have hp := printJson_length_pos v
    rw [kfuel_cons, printObjM_cons₂]
    simp only [List.length_append, List.length_cons]
    have hm : max (jfuel v) (kfuel (m :: kvs)) ≤
        (printJson v).length + (printObjM (m :: kvs)).length + 1 :=
      Nat.max_le.mpr ⟨by omega, by omega⟩
    omega

end

/-- Decode after encode is the identity on JSON-representable values. -/
theorem jsonParse_stringify (v : Json) : jsonParse (jsonStringify v) = some v := by
  unfold jsonParse jsonStringify
  have h := parseVal_print v [] ((printJson v).length + 1)
    (le_trans (jfuel_le v) (by omega)) noDigitStartB_nil
  rw [List.append_nil] at h
  rw [h]

/-! ## Registry helper lemmas -/

theorem mem_setL_keysND {κ α : Type} [DecidableEq κ]
    {m : List (κ × α)} {k : κ} {v : α} {e : κ × α}
    (hnd : keysND m) (h : e ∈ setL m k v) : e = (k, v) ∨ (e ∈ m ∧ e.1 ≠ k) := by
  induction m with
  | nil => simp only [setL, List.mem_singleton] at h; exact Or.inl h
  | cons e₀ rest ih =>
    obtain ⟨k₀, v₀⟩ := e₀
    simp only [keysND, List.map_cons, List.nodup_cons] at hnd
    by_cases hk : k₀ = k
    · subst hk
      simp only [setL, if_true, List.mem_cons] at h
      rcases h with h | h
      · exact Or.inl h
      · refine Or.inr ⟨List.mem_cons_of_mem _ h, fun he => ?_⟩
        exact hnd.1 (he ▸ List.mem_map_of_mem Prod.fst h)
    · simp only [setL, if_neg hk, List.mem_cons] at h
      rcases h with h | h
      · exact Or.inr ⟨by simp [h], by simp [h]; exact fun he => hk he⟩
      · rcases ih hnd.2 h with h | ⟨h₁, h₂⟩
        · exact Or.inl h
        · exact Or.inr ⟨List.mem_cons_of_mem _ h₁, h₂⟩

theorem mem_eraseL_keysND {κ α : Type} [DecidableEq κ]
    {m : List (κ × α)} {k : κ} {e : κ × α}
    (hnd : keysND m) (h : e ∈ eraseL m k) : e ∈ m ∧ e.1 ≠ k := by
  induction m with
  | nil => simp [eraseL] at h
  | cons e₀ rest ih =>
    obtain ⟨k₀, v₀⟩ := e₀
    simp only [keysND, List.map_cons, List.nodup_cons] at hnd
    by_cases hk : k₀ = k
    · subst hk
      simp only [eraseL, if_true] at h
      refine ⟨List.mem_cons_of_mem _ h, fun he => ?_⟩
      exact hnd.1 (he ▸ List.mem_map_of_mem Prod.fst h)
    · simp only [eraseL, if_neg hk, List.mem_cons] at h
      rcases h with h | h
      · exact ⟨by simp [h], by simp [h]; exact fun he => hk he⟩
      · obtain ⟨h₁, h₂⟩ := ih hnd.2 h
        exact ⟨List.mem_cons_of_mem _ h₁, h₂⟩

theorem fanout_ok (m : List (Nat × (String × Listener))) (v : Val) (ids : List Nat)
    (h : ∀ i ∈ ids, ∃ t l, lookupL m i = some (t, l) ∧ l v = false) :
    fanout m v ids = (ids.map (fun i => (i, v)), none) := by
  induction ids with
  | nil => rfl
  | cons i ids ih =>
    obtain ⟨t, l, hl, hv⟩ := h i (by simp)
    simp [fanout, hl, hv, ih (fun j hj => h j (by simp [hj]))]

theorem fanout_throw (m : List (Nat × (String × Listener))) (v : Val)
    (pre : List Nat) (t : Nat) (post : List Nat)
    (hpre : ∀ i ∈ pre, ∃ tr l, lookupL m i = some (tr, l) ∧ l v = false)
    (ht : ∃ tr l, lookupL m t = some (tr, l) ∧ l v = true) :
    fanout m v (pre ++ t :: post) =
      (pre.map (fun i => (i, v)) ++ [(t, v)], some DispatchErr.listenerThrew) := by
  induction pre with
  | nil =>
    obtain ⟨tr, l, hl, hv⟩ := ht
    simp [fanout, hl, hv]
  | cons i pre ih =>
    obtain ⟨tr, l, hl, hv⟩ := hpre i (by simp)
    simp [fanout, hl, hv, ih (fun j hj => hpre j (by simp [hj]))]

theorem fanout_values (m : List (Nat × (String × Listener))) (v : Val) (ids : List Nat) :
    ∀ q ∈ (fanout m v ids).1, q.2 = v := by
  induction ids with
  | nil => simp [fanout]
  | cons i ids ih =>
    intro q hq
    cases hl : lookupL m i with
    | none => simp [fanout, hl] at hq
    | some tl =>
      obtain ⟨t, l⟩ := tl
      by_cases hv : l v
      · simp [fanout, hl, hv] at hq
        rw [hq]
      · simp [fanout, hl, hv] at hq
        rcases hq with hq | hq
        · rw [hq]
        · exact ih q hq

theorem onMessage_drop (cfg : Config) (s : RState) (p : Option String) (c : String)
    (msg : Str)
    (h : lookupL s.subsRefsMap (jsKey p c) = none ∨
         lookupL s.subsRefsMap (jsKey p c) = some []) :
    RedisPubSub.onMessage cfg s p c msg = ⟨s, 0, [], none⟩ := by
  rcases h with h | h <;> simp [RedisPubSub.onMessage, h]

theorem onMessage_fanout (cfg : Config) (s : RState) (p : Option String) (c : String)
    (msg : Str) (subs : List Nat)
    (h : lookupL s.subsRefsMap (jsKey p c) = some subs) (hne : subs ≠ []) :
    RedisPubSub.onMessage cfg s p c msg =
      ⟨s, 1, (fanout s.subscriptionMap (decodePayload cfg msg) subs).1,
        (fanout s.subscriptionMap (decodePayload cfg msg) subs).2⟩ := by
  simp [RedisPubSub.onMessage, h, List.length_eq_zero, hne]

theorem subscribe_reuse (cfg : Config) (s : RState) (trigger : String) (l : Listener)
    (pattern transportFails : Bool) (refs : List Nat)
    (h : lookupL s.subsRefsMap (cfg.triggerTransform trigger pattern) = some refs)
    (hne : refs.length > 0) :
    RedisPubSub.subscribe cfg s trigger l pattern transportFails =
      ⟨⟨setL s.subscriptionMap s.currentSubscriptionId
          (cfg.triggerTransform trigger pattern, l),
        setL s.subsRefsMap (cfg.triggerTransform trigger pattern)
          (refs ++ [s.currentSubscriptionId]),
        s.currentSubscriptionId + 1⟩,
      Except.ok s.currentSubscriptionId, []⟩ := by
  simp [RedisPubSub.subscribe, h, hne]

theorem subscribe_fresh_fail (cfg : Config) (s : RState) (trigger : String) (l : Listener)
    (pattern : Bool)
    (h : lookupL s.subsRefsMap (cfg.triggerTransform trigger pattern) = none ∨
         lookupL s.subsRefsMap (cfg.triggerTransform trigger pattern) = some []) :
    RedisPubSub.subscribe cfg s trigger l pattern true =
      ⟨⟨setL s.subscriptionMap s.currentSubscriptionId
          (cfg.triggerTransform trigger pattern, l),
        s.subsRefsMap,
        s.currentSubscriptionId + 1⟩,
      Except.error PSError.subscribeFailed,
      [if pattern then TCall.subPat (cfg.triggerTransform trigger pattern)
       else TCall.subLit (cfg.triggerTransform trigger pattern)]⟩ := by
  rcases h with h | h <;> simp [RedisPubSub.subscribe, h]

theorem subscribe_fresh_ok (cfg : Config) (s : RState) (trigger : String) (l : Listener)
    (pattern : Bool)
    (h : lookupL s.subsRefsMap (cfg.triggerTransform trigger pattern) = none ∨
         lookupL s.subsRefsMap (cfg.triggerTransform trigger pattern) = some []) :
    RedisPubSub.subscribe cfg s trigger l pattern false =
      ⟨⟨setL s.subscriptionMap s.currentSubscriptionId
          (cfg.triggerTransform trigger pattern, l),
        setL s.subsRefsMap (cfg.triggerTransform trigger pattern)
          [s.currentSubscriptionId],
        s.currentSubscriptionId + 1⟩,
      Except.ok s.currentSubscriptionId,
      [if pattern then TCall.subPat (cfg.triggerTransform trigger pattern)
       else TCall.subLit (cfg.triggerTransform trigger pattern)]⟩ := by
  rcases h with h | h <;> simp [RedisPubSub.subscribe, h]

theorem unsubscribe_none (s : RState) (subId : Nat)
    (h : lookupL s.subsRefsMap (unsubKey s subId) = none) :
    RedisPubSub.unsubscribe s subId = ⟨s, some PSError.unknownSubscription, []⟩ := by
  simp [RedisPubSub.unsubscribe, h]

theorem unsubscribe_last (s : RState) (subId : Nat) (refs : List Nat)
    (h : lookupL s.subsRefsMap (unsubKey s subId) = some refs)
    (h1 : refs.length = 1) :
    RedisPubSub.unsubscribe s subId =
      ⟨⟨eraseL s.subscriptionMap subId, eraseL s.subsRefsMap (unsubKey s subId),
        s.currentSubscriptionId⟩,
      none,
      [TCall.unsubLit (unsubKey s subId), TCall.unsubPat (unsubKey s subId)]⟩ := by
  simp [RedisPubSub.unsubscribe, h, h1]

theorem unsubscribe_mid (s : RState) (subId : Nat) (refs : List Nat)
    (h : lookupL s.subsRefsMap (unsubKey s subId) = some refs)
    (h1 : ¬refs.length = 1) :
    RedisPubSub.unsubscribe s subId =
      ⟨⟨eraseL s.subscriptionMap subId,
        setL s.subsRefsMap (unsubKey s subId)
          (if subId ∈ refs then refs.erase subId else refs),
        s.currentSubscriptionId⟩,
      none, []⟩ := by
  simp [RedisPubSub.unsubscribe, h, h1]

/-! ## Registry invariant preservation -/

theorem regInv_subscribe (cfg : Config) (s : RState) (trigger : String) (l : Listener)
    (pattern transportFails : Bool) (h : RegInv s) :
    RegInv (RedisPubSub.subscribe cfg s trigger l pattern transportFails).state := by
  obtain ⟨hnd1, hnd2, href, hrec⟩ := h
  have hND1 : keysND (setL s.subscriptionMap s.currentSubscriptionId
      (cfg.triggerTransform trigger pattern, l)) :=
    keysND_setL _ _ hnd1
  have hrecnew : ∀ r ∈ setL s.subscriptionMap s.currentSubscriptionId
      (cfg.triggerTransform trigger pattern, l), r.1 < s.currentSubscriptionId + 1 := by
    intro r hr
    rcases mem_setL hr with rfl | hr
    · simp
    · exact Nat.lt_succ_of_lt (hrec r hr)
  by_cases hex : ∃ refs, lookupL s.subsRefsMap (cfg.triggerTransform trigger pattern)
      = some refs ∧ refs.length > 0
  · obtain ⟨refs, hre, hlen⟩ := hex
    rw [subscribe_reuse cfg s trigger l pattern transportFails refs hre hlen]
    unfold RegInv
    dsimp only
    refine ⟨hND1, keysND_setL _ _ hnd2, ?_, hrecnew⟩
    intro e he
    rcases mem_setL_keysND hnd2 he with rfl | ⟨he, hne⟩
    · have hmem := mem_of_lookupL hre
      obtain ⟨hnd, hmembers⟩ := href _ hmem
      constructor
      · refine List.Nodup.append hnd (by simp) ?_
        intro a ha hb
        simp only [List.mem_singleton] at hb
        subst hb
        have := (hmembers _ ha).2
        omega
      · intro i hi
        rcases List.mem_append.mp hi with hi | hi
        · obtain ⟨htr, hlt⟩ := hmembers i hi
          refine ⟨?_, by omega⟩
          simp only [lookupTrig] at htr ⊢
          rw [lookupL_setL_ne _ (by omega : i ≠ s.currentSubscriptionId)]
          exact htr
        · simp only [List.mem_singleton] at hi
          subst hi
          refine ⟨?_, by omega⟩
          simp only [lookupTrig]
          rw [lookupL_setL_self]
          rfl
    · obtain ⟨hnd, hmembers⟩ := href e he
      refine ⟨hnd, ?_⟩
      intro i hi
      obtain ⟨htr, hlt⟩ := hmembers i hi
      refine ⟨?_, by omega⟩
      simp only [lookupTrig] at htr ⊢
      rw [lookupL_setL_ne _ (by omega : i ≠ s.currentSubscriptionId)]
      exact htr
  · have hre : lookupL s.subsRefsMap (cfg.triggerTransform trigger pattern) = none ∨
        lookupL s.subsRefsMap (cfg.triggerTransform trigger pattern) = some [] := by
      push_neg at hex
      rcases hcase : lookupL s.subsRefsMap (cfg.triggerTransform trigger pattern)
        with _ | refs
      · exact Or.inl rfl
      · have h0 := hex refs hcase
        have h1 : refs.length = 0 := by omega
        exact Or.inr (by rw [List.length_eq_zero.mp h1])
    cases transportFails with
    | true =>
      rw [subscribe_fresh_fail cfg s trigger l pattern hre]
      unfold RegInv
      dsimp only
      refine ⟨hND1, hnd2, ?_, hrecnew⟩
      intro e he
      obtain ⟨hnd, hmembers⟩ := href e he
      refine ⟨hnd, ?_⟩
      intro i hi
      obtain ⟨htr, hlt⟩ := hmembers i hi
      refine ⟨?_, by omega⟩
      simp only [lookupTrig] at htr ⊢
      rw [lookupL_setL_ne _ (by omega : i ≠ s.currentSubscriptionId)]
      exact htr
    | false =>
      rw [subscribe_fresh_ok cfg s trigger l pattern hre]
      unfold RegInv
      dsimp only
      refine ⟨hND1, keysND_setL _ _ hnd2, ?_, hrecnew⟩
      intro e he
      rcases mem_setL_keysND hnd2 he with rfl | ⟨he, hne⟩
      · refine ⟨by simp, ?_⟩
        intro i hi
        simp only [List.mem_singleton] at hi
        subst hi
        refine ⟨?_, by omega⟩
        simp only [lookupTrig]
        rw [lookupL_setL_self]
        rfl
      · obtain ⟨hnd, hmembers⟩ := href e he
        refine ⟨hnd, ?_⟩
        intro i hi
        obtain ⟨htr, hlt⟩ := hmembers i hi
        refine ⟨?_, by omega⟩
        simp only [lookupTrig] at htr ⊢
        rw [lookupL_setL_ne _ (by omega : i ≠ s.currentSubscriptionId)]
        exact htr

theorem regInv_unsubscribe (s : RState) (subId : Nat) (h : RegInv s) :
    RegInv (RedisPubSub.unsubscribe s subId).state := by
  obtain ⟨hnd1, hnd2, href, hrec⟩ := h
  have hkey : ∀ e ∈ s.subsRefsMap, ∀ i ∈ e.2, e.1 ≠ unsubKey s subId → i ≠ subId := by
    intro e he i hi hne heq
    subst heq
    obtain ⟨-, hmem⟩ := href e he
    obtain ⟨htr, -⟩ := hmem i hi
    rcases hrec2 : lookupL s.subscriptionMap i with _ | p
    · rw [lookupTrig, hrec2] at htr
      simp at htr
    · have hk : unsubKey s i = p.1 := by rw [unsubKey, hrec2]
      rw [lookupTrig, hrec2] at htr
      simp at htr
      exact hne (by rw [hk, htr])
  rcases hcase : lookupL s.subsRefsMap (unsubKey s subId) with _ | refs
  · rw [unsubscribe_none s subId hcase]
    exact ⟨hnd1, hnd2, href, hrec⟩
  · by_cases h1 : refs.length = 1
    · rw [unsubscribe_last s subId refs hcase h1]
      unfold RegInv
      refine ⟨keysND_eraseL _ hnd1, keysND_eraseL _ hnd2, ?_, ?_⟩
      · intro e he
        obtain ⟨hemem, hene⟩ := mem_eraseL_keysND hnd2 he
        obtain ⟨hnd, hmem⟩ := href e hemem
        refine ⟨hnd, ?_⟩
        intro i hi
        obtain ⟨htr, hlt⟩ := hmem i hi
        have hine : i ≠ subId := hkey e hemem i hi hene
        refine ⟨?_, hlt⟩
        simp only [lookupTrig] at htr ⊢
        rw [lookupL_eraseL_ne hine]
        exact htr
      · intro r hr
        exact hrec r (mem_eraseL_keysND hnd1 hr).1
    · rw [unsubscribe_mid s subId refs hcase h1]
      unfold RegInv
      refine ⟨keysND_eraseL _ hnd1, keysND_setL _ _ hnd2, ?_, ?_⟩
      · intro e he
        rcases mem_setL_keysND hnd2 he with rfl | ⟨hemem, hene⟩
        · have hmemref := mem_of_lookupL hcase
          obtain ⟨hnd, hmem⟩ := href _ hmemref
          by_cases hin : subId ∈ refs
          · constructor
            · simp only [if_pos hin]
              exact hnd.erase _
            · intro i hi
              simp only [if_pos hin] at hi
              have hi2 : i ∈ refs := List.mem_of_mem_erase hi
              have hine : i ≠ subId := by
                intro heq
                subst heq
                exact hnd.not_mem_erase hi
              obtain ⟨htr, hlt⟩ := hmem i hi2
              refine ⟨?_, hlt⟩
              simp only [lookupTrig] at htr ⊢
              rw [lookupL_eraseL_ne hine]
              exact htr
          · constructor
            · simp only [if_neg hin]
              exact hnd
            · intro i hi
              simp only [if_neg hin] at hi
              have hine : i ≠ subId := fun heq => hin (heq ▸ hi)
              obtain ⟨htr, hlt⟩ := hmem i hi
              refine ⟨?_, hlt⟩
              simp only [lookupTrig] at htr ⊢
              rw [lookupL_eraseL_ne hine]
              exact htr
        · obtain ⟨hnd, hmem⟩ := href e hemem
          refine ⟨hnd, ?_⟩
          intro i hi
          have hine : i ≠ subId := hkey e hemem i hi hene
          obtain ⟨htr, hlt⟩ := hmem i hi
          refine ⟨?_, hlt⟩
          simp only [lookupTrig] at htr ⊢
          rw [lookupL_eraseL_ne hine]
          exact htr
      · intro r hr
        exact hrec r (mem_eraseL_keysND hnd1 hr).1

theorem regInv_consequences (s : RState) (h : RegInv s) :
    (∀ e₁ ∈ s.subsRefsMap, ∀ e₂ ∈ s.subsRefsMap,
      ∀ i : Nat, i ∈ e₁.2 → i ∈ e₂.2 → e₁ = e₂) ∧
    (∀ e ∈ s.subsRefsMap, ∀ i ∈ e.2, (lookupL s.subscriptionMap i).isSome = true) := by
  obtain ⟨hnd1, hnd2, href, hrec⟩ := h
  constructor
  · intro e₁ he₁ e₂ he₂ i hi₁ hi₂
    have h₁ := ((href e₁ he₁).2 i hi₁).1
    have h₂ := ((href e₂ he₂).2 i hi₂).1
    rw [h₁] at h₂
    exact keysND_eq_of_mem hnd2 he₁ he₂ (Option.some_inj.mp h₂)
  · intro e he i hi
    have h₁ := ((href e he).2 i hi).1
    simp only [lookupTrig] at h₁
    rcases hl : lookupL s.subscriptionMap i with _ | p
    · rw [hl] at h₁
      simp at h₁
    · simp

/-! ## Claim theorems -/

/-- C1 counterexample: from the fresh registry, a subscribe whose
transport subscribe fails does reject the future, but the Subscription
record stored for the allocated id 0 remains in the id-to-record
mapping, contradicting "no state retained". -/
theorem c1_counterexample :
    (RedisPubSub.subscribe cfg0 s0 "t" lOk false true).result =
      Except.error PSError.subscribeFailed ∧
    lookupL (RedisPubSub.subscribe cfg0 s0 "t" lOk false true).state.subscriptionMap 0 =
      some ("t", lOk) :=
  ⟨rfl, rfl⟩

/-- C1 (amended): when the transport subscribe of a fresh physical
channel fails, the returned future fails with SubscribeFailed and no
ChannelRefSet is created for the computed PhysicalChannel, but the
Subscription record for the allocated id remains in the id-to-record
mapping. -/
theorem c1_theorem (cfg : Config) (s : RState) (trigger : String) (l : Listener)
    (pattern : Bool)
    (h : lookupL s.subsRefsMap (cfg.triggerTransform trigger pattern) = none ∨
         lookupL s.subsRefsMap (cfg.triggerTransform trigger pattern) = some []) :
    (RedisPubSub.subscribe cfg s trigger l pattern true).result =
        Except.error PSError.subscribeFailed ∧
    (RedisPubSub.subscribe cfg s trigger l pattern true).state.subsRefsMap =
        s.subsRefsMap ∧
    lookupL (RedisPubSub.subscribe cfg s trigger l pattern true).state.subscriptionMap
        s.currentSubscriptionId = some (cfg.triggerTransform trigger pattern, l) := by
  rw [subscribe_fresh_fail cfg s trigger l pattern h]
  exact ⟨rfl, rfl, lookupL_setL_self _ _ _⟩

/-- C1 witness: the amended claim at the fresh registry with trigger
`"t"` and a failing transport. -/
theorem c1_witness :
    (lookupL s0.subsRefsMap (cfg0.triggerTransform "t" false) = none ∨
     lookupL s0.subsRefsMap (cfg0.triggerTransform "t" false) = some []) ∧
    ((RedisPubSub.subscribe cfg0 s0 "t" lOk false true).result =
        Except.error PSError.subscribeFailed ∧
     (RedisPubSub.subscribe cfg0 s0 "t" lOk false true).state.subsRefsMap =
        s0.subsRefsMap ∧
     lookupL (RedisPubSub.subscribe cfg0 s0 "t" lOk false true).state.subscriptionMap
        s0.currentSubscriptionId = some (cfg0.triggerTransform "t" false, lOk)) :=
  ⟨Or.inl rfl, c1_theorem cfg0 s0 "t" lOk false (Or.inl rfl)⟩

/-- C2 counterexample: with a throwing listener (id 0) ahead of a
well-behaved one (id 1) on channel `"ch"`, the listener after the
throwing one is not invoked, contradicting "every listener appearing
after it is still invoked". -/
theorem c2_counterexample :
    (RedisPubSub.onMessage cfg0 s2 none "ch" ['1']).invocations =
      [(0, Val.json (Json.num 1))] ∧
    (1, Val.json (Json.num 1)) ∉
      (RedisPubSub.onMessage cfg0 s2 none "ch" ['1']).invocations := by
  have h : (RedisPubSub.onMessage cfg0 s2 none "ch" ['1']).invocations
      = [(0, Val.json (Json.num 1))] := rfl
  refine ⟨h, ?_⟩
  rw [h]
  intro hmem
  simp at hmem

/-- C2 (amended): when a listener in the fan-out throws, the listeners
before it in ChannelRefSet order are invoked, the throwing listener is
invoked, and the exception propagates out of onMessage, so no listener
after it is invoked. -/
theorem c2_theorem (cfg : Config) (s : RState) (p : Option String) (c : String)
    (msg : Str) (pre : List Nat) (t : Nat) (post : List Nat)
    (hsub : lookupL s.subsRefsMap (jsKey p c) = some (pre ++ t :: post))
    (hpre : ∀ i ∈ pre, ∃ tr l, lookupL s.subscriptionMap i = some (tr, l) ∧
      l (decodePayload cfg msg) = false)
    (ht : ∃ tr l, lookupL s.subscriptionMap t = some (tr, l) ∧
      l (decodePayload cfg msg) = true) :
    (RedisPubSub.onMessage cfg s p c msg).invocations =
      pre.map (fun i => (i, decodePayload cfg msg)) ++ [(t, decodePayload cfg msg)] ∧
    (RedisPubSub.onMessage cfg s p c msg).err = some DispatchErr.listenerThrew := by
  rw [onMessage_fanout cfg s p c msg _ hsub (by simp),
    fanout_throw s.subscriptionMap (decodePayload cfg msg) pre t post hpre ht]
  exact ⟨rfl, rfl⟩

/-- C2 witness: the amended claim at the registry `s2` — the throwing
listener is first, so only it is invoked and the error propagates. -/
theorem c2_witness :
    lookupL s2.subsRefsMap (jsKey none "ch") = some ([] ++ 0 :: [1]) ∧
    ((RedisPubSub.onMessage cfg0 s2 none "ch" ['1']).invocations =
      ([] : List Nat).map (fun i => (i, decodePayload cfg0 ['1'])) ++
        [(0, decodePayload cfg0 ['1'])] ∧
     (RedisPubSub.onMessage cfg0 s2 none "ch" ['1']).err =
        some DispatchErr.listenerThrew) :=
  ⟨rfl, c2_theorem cfg0 s2 none "ch" ['1'] [] 0 [1] rfl (by simp)
    ⟨"ch", lThrow, rfl, rfl⟩⟩

/-- C3: evaluation at the failing input — in a registry whose only
subscription has the trigger name `"null"` (registry `s3`), unsubscribe
of the unknown id 7 does not fail: it issues a literal and a pattern
transport unsubscribe for the channel `"null"`, deletes that channel's
ChannelRefSet, and leaves id 0's record orphaned, contradicting "fails
with UnknownSubscription and makes no transport call". -/
theorem c3_theorem :
    lookupL s3.subscriptionMap 7 = none ∧
    (RedisPubSub.unsubscribe s3 7).error = none ∧
    (RedisPubSub.unsubscribe s3 7).calls =
      [TCall.unsubLit "null", TCall.unsubPat "null"] ∧
    (RedisPubSub.unsubscribe s3 7).state.subsRefsMap = [] ∧
    lookupL (RedisPubSub.unsubscribe s3 7).state.subscriptionMap 0 =
      some ("null", lOk) :=
  ⟨rfl, rfl, rfl, rfl, rfl⟩

/-- C4: when the configured decoder throws on the raw payload, every
listener bound to the dispatch key (none of which throws on the raw
value) is invoked with the raw undecoded payload, and onMessage does not
throw. -/
theorem c4_theorem (cfg : Config) (s : RState) (p : Option String) (c : String)
    (msg : Str) (subs : List Nat)
    (hsub : lookupL s.subsRefsMap (jsKey p c) = some subs) (hne : subs ≠ [])
    (hdec : decodeAttemptD cfg msg = none)
    (hl : ∀ i ∈ subs, ∃ t l, lookupL s.subscriptionMap i = some (t, l) ∧
      l (Val.raw msg) = false) :
    (RedisPubSub.onMessage cfg s p c msg).invocations =
        subs.map (fun i => (i, Val.raw msg)) ∧
    (RedisPubSub.onMessage cfg s p c msg).err = none := by
  have hv : decodePayload cfg msg = Val.raw msg := by
    rw [decodePayload, hdec]
    rfl
  rw [onMessage_fanout cfg s p c msg subs hsub hne, hv,
    fanout_ok s.subscriptionMap (Val.raw msg) subs hl]
  exact ⟨rfl, rfl⟩

/-- C4 witness: the unparseable payload `"x"` is delivered raw to both
listeners of registry `s4` without an error. -/
theorem c4_witness :
    decodeAttemptD cfg0 ['x'] = none ∧
    ((RedisPubSub.onMessage cfg0 s4 none "ch" ['x']).invocations =
      [0, 1].map (fun i => (i, Val.raw ['x'])) ∧
     (RedisPubSub.onMessage cfg0 s4 none "ch" ['x']).err = none) := by
  refine ⟨rfl, c4_theorem cfg0 s4 none "ch" ['x'] [0, 1] rfl (by simp) rfl ?_⟩
  intro i hi
  simp only [List.mem_cons, List.not_mem_nil, or_false] at hi
  rcases hi with rfl | rfl
  · exact ⟨"ch", lOk, rfl, rfl⟩
  · exact ⟨"ch", lOk, rfl, rfl⟩

/-- C5: unsubscribing a valid id whose ChannelRefSet is the singleton
containing it issues exactly one literal-unsubscribe and one
pattern-unsubscribe for its PhysicalChannel, deletes the ChannelRefSet
and the Subscription record, and a subsequently dispatched message for
that channel is delivered to no listener. -/
theorem c5_theorem (s : RState) (subId : Nat) (t : String) (l : Listener)
    (hrec : lookupL s.subscriptionMap subId = some (t, l))
    (hrefs : lookupL s.subsRefsMap t = some [subId])
    (hnd1 : keysND s.subscriptionMap) (hnd2 : keysND s.subsRefsMap) :
    (RedisPubSub.unsubscribe s subId).error = none ∧
    (RedisPubSub.unsubscribe s subId).calls =
      [TCall.unsubLit t, TCall.unsubPat t] ∧
    lookupL (RedisPubSub.unsubscribe s subId).state.subsRefsMap t = none ∧
    lookupL (RedisPubSub.unsubscribe s subId).state.subscriptionMap subId = none ∧
    (∀ cfg p c msg, jsKey p c = t →
      (RedisPubSub.onMessage cfg (RedisPubSub.unsubscribe s subId).state p c
        msg).invocations = []) := by
  have hk : unsubKey s subId = t := by rw [unsubKey, hrec]
  have hrefsk : lookupL s.subsRefsMap (unsubKey s subId) = some [subId] := by
    rw [hk]
    exact hrefs
  rw [unsubscribe_last s subId [subId] hrefsk rfl]
  dsimp only
  rw [hk]
  refine ⟨rfl, rfl, lookupL_eraseL_self hnd2, lookupL_eraseL_self hnd1, ?_⟩
  intro cfg p c msg hkey
  rw [onMessage_drop cfg _ p c msg
    (Or.inl (by dsimp only; rw [hkey]; exact lookupL_eraseL_self hnd2))]

/-- C5 witness: the teardown at registry `s5` (one subscription, id 0,
channel `"ch"`). -/
theorem c5_witness :
    lookupL s5.subscriptionMap 0 = some ("ch", lOk) ∧
    lookupL s5.subsRefsMap "ch" = some [0] ∧
    ((RedisPubSub.unsubscribe s5 0).error = none ∧
     (RedisPubSub.unsubscribe s5 0).calls =
       [TCall.unsubLit "ch", TCall.unsubPat "ch"] ∧
     lookupL (RedisPubSub.unsubscribe s5 0).state.subsRefsMap "ch" = none ∧
     lookupL (RedisPubSub.unsubscribe s5 0).state.subscriptionMap 0 = none ∧
     (∀ cfg p c msg, jsKey p c = "ch" →
       (RedisPubSub.onMessage cfg (RedisPubSub.unsubscribe s5 0).state p c
         msg).invocations = [])) :=
  ⟨rfl, rfl, c5_theorem s5 0 "ch" lOk rfl rfl (by simp [keysND, s5]) (by simp [keysND, s5])⟩

/-- C6: a message whose dispatch key has a non-empty ChannelRefSet of
non-throwing listeners is delivered to every listener exactly once with
the decoded value, in ChannelRefSet order. -/
theorem c6_theorem (cfg : Config) (s : RState) (p : Option String) (c : String)
    (msg : Str) (subs : List Nat)
    (hsub : lookupL s.subsRefsMap (jsKey p c) = some subs) (hne : subs ≠ [])
    (hl : ∀ i ∈ subs, ∃ t l, lookupL s.subscriptionMap i = some (t, l) ∧
      l (decodePayload cfg msg) = false) :
    (RedisPubSub.onMessage cfg s p c msg).invocations =
        subs.map (fun i => (i, decodePayload cfg msg)) ∧
    (RedisPubSub.onMessage cfg s p c msg).err = none ∧
    (subs.Nodup → ∀ i ∈ subs,
      ((RedisPubSub.onMessage cfg s p c msg).invocations.map Prod.fst).count i = 1) := by
  rw [onMessage_fanout cfg s p c msg subs hsub hne,
    fanout_ok s.subscriptionMap (decodePayload cfg msg) subs hl]
  refine ⟨rfl, rfl, ?_⟩
  intro hnd i hi
  have hmap : (subs.map (fun j => (j, decodePayload cfg msg))).map Prod.fst = subs := by
    rw [List.map_map]
    exact List.map_id' subs
  dsimp only
  rw [hmap]
  exact List.count_eq_one_of_mem hnd hi

/-- C6 witness: two triggers `"a"` and `"b"` transformed to the same
physical channel `"ch"` (state `c6state`) both receive one delivery per
message, in subscription order 0 then 1. -/
theorem c6_witness :
    lookupL c6state.subsRefsMap (jsKey none "ch") = some [0, 1] ∧
    ((RedisPubSub.onMessage cfg0 c6state none "ch" ['1']).invocations =
        [0, 1].map (fun i => (i, decodePayload cfg0 ['1'])) ∧
     (RedisPubSub.onMessage cfg0 c6state none "ch" ['1']).err = none) := by
  have hl : ∀ i ∈ [0, 1], ∃ t l, lookupL c6state.subscriptionMap i = some (t, l) ∧
      l (decodePayload cfg0 ['1']) = false := by
    intro i hi
    simp only [List.mem_cons, List.not_mem_nil, or_false] at hi
    rcases hi with rfl | rfl
    · exact ⟨"ch", lOk, rfl, rfl⟩
    · exact ⟨"ch", lOk, rfl, rfl⟩
  have h := c6_theorem cfg0 c6state none "ch" ['1'] [0, 1] rfl (by simp) hl
  exact ⟨rfl, h.1, h.2.1⟩

/-- C7: with the default codec, publishing a JSON-representable value
sends its `JSON.stringify` encoding, decoding that wire payload yields
the value back, and the full publish/dispatch pipeline delivers the
structurally equal decoded value to the listener. -/
theorem c7_theorem (v : Json) (t : String) :
    RedisPubSub.publish cfg0 t v = TCall.pub t (jsonStringify v) ∧
    decodePayload cfg0 (jsonStringify v) = Val.json v ∧
    (RedisPubSub.onMessage cfg0 s5 none "ch"
        (wireOf (RedisPubSub.publish cfg0 "ch" v))).invocations = [(0, Val.json v)] := by
  have hd : decodePayload cfg0 (jsonStringify v) = Val.json v := by
    unfold decodePayload decodeAttemptD
    dsimp only [cfg0]
    rw [jsonParse_stringify v]
    rfl
  refine ⟨rfl, hd, ?_⟩
  have hw : wireOf (RedisPubSub.publish cfg0 "ch" v) = jsonStringify v := rfl
  rw [hw, onMessage_fanout cfg0 s5 none "ch" (jsonStringify v) [0] rfl (by simp), hd,
    fanout_ok s5.subscriptionMap (Val.json v) [0] ?_]
  · rfl
  · intro i hi
    simp only [List.mem_singleton] at hi
    subst hi
    exact ⟨"ch", lOk, rfl, rfl⟩

/-- C8 counterexample: an inbound message with the present but empty
pattern `""` is dropped even though the ChannelRefSet for the key `""`
is non-empty — the code treats the empty-string pattern as absent,
contradicting "patternOrNil when present". -/
theorem c8_counterexample :
    lookupL s8.subsRefsMap "" = some [0] ∧
    (RedisPubSub.onMessage cfg0 s8 (some "") "ch" ['1']).invocations = [] ∧
    (RedisPubSub.onMessage cfg0 s8 (some "") "ch" ['1']).decodeAttempts = 0 :=
  ⟨rfl, rfl, rfl⟩

/-- C8 (amended): the dispatch key is the pattern when present and
non-empty (an empty-string pattern falls back to the channel, as does an
absent one); when no ChannelRefSet exists for that key or it is empty,
the message is silently dropped: no decode is attempted, no listener is
invoked, no error is raised and the registry state is unchanged. -/
theorem c8_theorem (cfg : Config) (s : RState) (p : Option String) (c : String)
    (msg : Str)
    (h : lookupL s.subsRefsMap (jsKey p c) = none ∨
         lookupL s.subsRefsMap (jsKey p c) = some []) :
    RedisPubSub.onMessage cfg s p c msg =
      { state := s, decodeAttempts := 0, invocations := [], err := none } :=
  onMessage_drop cfg s p c msg h

/-- C8 witness: the amended claim at the fresh registry and an
unsubscribed channel. -/
theorem c8_witness :
    (lookupL s0.subsRefsMap (jsKey none "x") = none ∨
     lookupL s0.subsRefsMap (jsKey none "x") = some []) ∧
    RedisPubSub.onMessage cfg0 s0 none "x" ['1'] =
      { state := s0, decodeAttempts := 0, invocations := [], err := none } :=
  ⟨Or.inl rfl, c8_theorem cfg0 s0 none "x" ['1'] (Or.inl rfl)⟩

/-- C9 counterexample: after a transport-failed subscribe from the fresh
registry, the Subscription record for id 0 exists while no ChannelRefSet
exists at all, so the record's id appears in no ChannelRefSet — the two
tables are not in bijection. -/
theorem c9_counterexample :
    lookupL (RedisPubSub.subscribe cfg0 s0 "t" lOk false true).state.subscriptionMap 0 =
      some ("t", lOk) ∧
    (RedisPubSub.subscribe cfg0 s0 "t" lOk false true).state.subsRefsMap = [] :=
  ⟨rfl, rfl⟩

/-- C9 (amended): the registry invariant `RegInv` is preserved by every
completed subscribe or unsubscribe (including failed ones), and under it
every SubscriptionId appearing in any ChannelRefSet appears in exactly
one ChannelRefSet and has a Subscription record; a record's id need not
appear in any ChannelRefSet (a transport-failed subscribe orphans it). -/
theorem c9_theorem (cfg : Config) (s : RState) (op : Op) (h : RegInv s) :
    RegInv (applyOp cfg s op) ∧
    (∀ e₁ ∈ (applyOp cfg s op).subsRefsMap, ∀ e₂ ∈ (applyOp cfg s op).subsRefsMap,
      ∀ i : Nat, i ∈ e₁.2 → i ∈ e₂.2 → e₁ = e₂) ∧
    (∀ e ∈ (applyOp cfg s op).subsRefsMap, ∀ i ∈ e.2,
      (lookupL (applyOp cfg s op).subscriptionMap i).isSome = true) := by
  have hinv : RegInv (applyOp cfg s op) := by
    cases op with
    | sub trigger l pattern fails => exact regInv_subscribe cfg s trigger l pattern fails h
    | unsub i => exact regInv_unsubscribe s i h
  obtain ⟨h₁, h₂⟩ := regInv_consequences _ hinv
  exact ⟨hinv, h₁, h₂⟩

/-- C9 witness: the amended claim applied to the fresh registry and a
successful subscribe operation. -/
theorem c9_witness :
    RegInv s0 ∧
    (RegInv (applyOp cfg0 s0 (Op.sub "t" lOk false false)) ∧
     (∀ e₁ ∈ (applyOp cfg0 s0 (Op.sub "t" lOk false false)).subsRefsMap,
      ∀ e₂ ∈ (applyOp cfg0 s0 (Op.sub "t" lOk false false)).subsRefsMap,
      ∀ i : Nat, i ∈ e₁.2 → i ∈ e₂.2 → e₁ = e₂) ∧
     (∀ e ∈ (applyOp cfg0 s0 (Op.sub "t" lOk false false)).subsRefsMap, ∀ i ∈ e.2,
       (lookupL (applyOp cfg0 s0 (Op.sub "t" lOk false false)).subscriptionMap i).isSome
         = true)) := by
  have h0 : RegInv s0 := by
    unfold RegInv
    simp [keysND, s0]
  exact ⟨h0, c9_theorem cfg0 s0 (Op.sub "t" lOk false false) h0⟩

/-- C10: a message that reaches fan-out is decoded exactly once, and
every recorded listener invocation carries that same decoded value. -/
theorem c10_theorem (cfg : Config) (s : RState) (p : Option String) (c : String)
    (msg : Str) (subs : List Nat)
    (hsub : lookupL s.subsRefsMap (jsKey p c) = some subs) (hne : subs ≠ []) :
    (RedisPubSub.onMessage cfg s p c msg).decodeAttempts = 1 ∧
    (∀ q ∈ (RedisPubSub.onMessage cfg s p c msg).invocations,
      q.2 = decodePayload cfg msg) := by
  rw [onMessage_fanout cfg s p c msg subs hsub hne]
  exact ⟨rfl, fanout_values s.subscriptionMap (decodePayload cfg msg) subs⟩

/-- C10 witness: the claim at registry `s4` with two listeners. -/
theorem c10_witness :
    lookupL s4.subsRefsMap (jsKey none "ch") = some [0, 1] ∧
    ((RedisPubSub.onMessage cfg0 s4 none "ch" ['1']).decodeAttempts = 1 ∧
     (∀ q ∈ (RedisPubSub.onMessage cfg0 s4 none "ch" ['1']).invocations,
       q.2 = decodePayload cfg0 ['1'])) :=
  ⟨rfl, c10_theorem cfg0 s4 none "ch" ['1'] [0, 1] rfl (by simp)⟩
